import Mathlib

/-!
A shallow embedding of the compatibility-hashing code of
`metadata/src/utils/validation.rs` and of the extrinsic decoder of
`core/src/blocks/extrinsics.rs` from the subxt repository, together with
theorems settling the frozen claims about them.

Modelling conventions:

* A 32-byte digest (`[u8; HASH_LEN]`) is represented as a natural number,
  the little-endian value of the byte array (`bytesToNat`); the bytewise
  `xor` of the source is then exactly `Nat.xor`.
* The hash primitive `twox_256` is external to the repository
  (`sp_core_hashing`).  It is modelled by an abstract structure of hash
  functions (`HashPrims`): one function per input shape used by the source
  (`concat_and_hash2` .. `concat_and_hash5` for 2..5 concatenated 32-byte
  digests, a name hash and a raw-byte hash).  Where a claim needs the
  spec's "collision-resistant" idealisation it appears as an injectivity
  hypothesis on these functions.
* The recursion of `get_type_hash` terminates in the source because every
  recursive call happens with one more id marked in the cache of the
  finite registry.  Here the recursion is made structural with an explicit
  fuel argument; running out of fuel returns the junk digest `0`.
  Quantifying over every sufficient fuel also expresses termination.
* `registry.resolve(id).expect(..)` panics on an unregistered id
  (the fatal integrity violation of spec section 7); the model returns the
  junk digest `0` there.
-/

namespace Subxt

/-- Little-endian value of a list of bytes; 32-byte digests are the values
of their byte arrays under this map. -/
def bytesToNat (l : List Nat) : Nat :=
  l.foldr (fun b acc => b + 256 * acc) 0

/-- The digest standing for the 32-byte array `[t; 32]` all of whose bytes
are `t` (used for `TypeBeingHashed` tags, storage modifiers, hasher kinds
and the repeated extrinsic version byte). -/
def tagDigest (t : Nat) : Nat :=
  bytesToNat (List.replicate 32 t)

/-- Big-endian bytes of a `u32`, as produced by `array.len.to_be_bytes()`. -/
def beBytes4 (n : Nat) : List Nat :=
  [n / 16777216 % 256, n / 65536 % 256, n / 256 % 256, n % 256]

/-- The 32-byte id used for `TypeDef::Array`: the `Array` tag byte (3),
then the four big-endian length bytes, then zeroes. -/
def arrayIdDigest (len : Nat) : Nat :=
  bytesToNat (3 :: (beBytes4 len ++ List.replicate 27 0))

/-- The abstract hash primitives of `validation.rs`: `hname` and `hbytes`
model `hash(..)` applied to a name's bytes and to raw byte data, and
`cb2`..`cb5` model `concat_and_hash2`..`concat_and_hash5` (the `twox_256`
hash of 2..5 concatenated 32-byte digests). -/
structure HashPrims where
  hname : String → Nat
  hbytes : List Nat → Nat
  cb2 : Nat → Nat → Nat
  cb3 : Nat → Nat → Nat → Nat
  cb4 : Nat → Nat → Nat → Nat → Nat
  cb5 : Nat → Nat → Nat → Nat → Nat → Nat

/-- `scale_info::Field`: an optional name and a type id. -/
structure SField where
  name : Option String
  ty : Nat

deriving DecidableEq

/-- `scale_info::Variant`: a name, ordered fields, and the wire index
(which `get_variant_hash` intentionally does not hash). -/
structure SVariant where
  name : String
  fields : List SField
  index : Nat

deriving DecidableEq

/-- `scale_info::TypeDef`. -/
inductive STypeDef where
  | composite (fields : List SField)
  | variant (variants : List SVariant)
  | sequence (elem : Nat)
  | array (len : Nat) (elem : Nat)
  | tuple (elems : List Nat)
  | primitive (kind : Nat)
  | compact (inner : Nat)
  | bitSequence (bitOrderTy : Nat) (bitStoreTy : Nat)

deriving DecidableEq

/-- `scale_info::PortableRegistry`, as its `resolve` map from type ids to
type definitions. -/
def Registry : Type := Nat → Option STypeDef

/-- `CachedHash`: a hash computation for a type id is either still in
progress (`Recursive`) or finished. -/
inductive CachedHash where
  | Recursive
  | Hash (h : Nat)

deriving DecidableEq

/-- `CachedHash::hash`: the finished digest, or the fixed magic value
`[123; 32]` for an in-progress entry (a cycle closing back on itself). -/
def CachedHash.hashVal : CachedHash → Nat
  | .Hash h => h
  | .Recursive => tagDigest 123

/-- The per-computation cache `HashMap<u32, CachedHash>`. -/
def HashCache : Type := Nat → Option CachedHash

def emptyCache : HashCache := fun _ => none

def HashCache.insert (c : HashCache) (id : Nat) (v : CachedHash) : HashCache :=
  fun j => if j = id then some v else c j

/-- The name part of `get_field_hash`: `hash(name)` for a named field,
the zero digest for an unnamed one. -/
def field_name_hash (H : HashPrims) (f : SField) : Nat :=
  match f.name with
  | some n => H.hname n
  | none => 0

/-- Body of `get_field_hash`, abstracted over the recursive call `go`
(which stands for `get_type_hash` on the same registry and cache). -/
def field_hash_step (H : HashPrims) (go : Nat → HashCache → Nat × HashCache)
    (f : SField) (cache : HashCache) : Nat × HashCache :=
  let (th, c1) := go f.ty cache
  (H.cb2 (field_name_hash H f) th, c1)

/-- Body of `get_variant_hash`: hash of the variant name combined with the
XOR-fold of its field hashes (field order intentionally irrelevant). -/
def variant_hash_step (H : HashPrims) (go : Nat → HashCache → Nat × HashCache)
    (v : SVariant) (cache : HashCache) : Nat × HashCache :=
  let (fb, c1) := v.fields.foldl
    (fun acc f =>
      let (fh, ca) := field_hash_step H go f acc.2
      (Nat.xor acc.1 fh, ca)) (0, cache)
  (H.cb2 (H.hname v.name) fb, c1)

/-- Body of `get_type_def_variant_hash`: XOR-fold of the (optionally
name-filtered) variant hashes, combined under the `Variant` tag. -/
def type_def_variant_hash_step (H : HashPrims)
    (go : Nat → HashCache → Nat × HashCache)
    (onlyTheseVariants : Option (List String)) (variants : List SVariant)
    (cache : HashCache) : Nat × HashCache :=
  let (vb, c1) := variants.foldl
    (fun acc v =>
      let shouldHash := match onlyTheseVariants with
        | some names => names.contains v.name
        | none => true
      if shouldHash then
        let (vh, ca) := variant_hash_step H go v acc.2
        (Nat.xor acc.1 vh, ca)
      else acc) (0, cache)
  (H.cb2 (tagDigest 1) vb, c1)

/-- Body of `get_type_def_hash`: dispatch on the shape of the type
definition (`TypeBeingHashed` tags: Composite 0, Variant 1, Sequence 2,
Array 3, Tuple 4, Primitive 5, Compact 6, BitSequence 7). -/
def type_def_hash_step (H : HashPrims) (go : Nat → HashCache → Nat × HashCache)
    (td : STypeDef) (cache : HashCache) : Nat × HashCache :=
  match td with
  | .composite fields =>
    let (fb, c1) := fields.foldl
      (fun acc f =>
        let (fh, ca) := field_hash_step H go f acc.2
        (Nat.xor acc.1 fh, ca)) (0, cache)
    (H.cb2 (tagDigest 0) fb, c1)
  | .variant variants => type_def_variant_hash_step H go none variants cache
  | .sequence elem =>
    let (th, c1) := go elem cache
    (H.cb2 (tagDigest 2) th, c1)
  | .array len elem =>
    let (th, c1) := go elem cache
    (H.cb2 (arrayIdDigest len) th, c1)
  | .tuple elems =>
    elems.foldl
      (fun acc tyId =>
        let (th, ca) := go tyId acc.2
        (H.cb2 acc.1 th, ca)) (H.hbytes [4], cache)
  | .primitive kind => (H.hbytes [5, kind], cache)
  | .compact inner =>
    let (th, c1) := go inner cache
    (H.cb2 (tagDigest 6) th, c1)
  | .bitSequence bo bs =>
    let (tho, c1) := go bo cache
    let (ths, c2) := go bs c1
    (H.cb3 (tagDigest 7) tho ths, c2)

/-- Body of `get_type_hash` for one step: return the derived hash of any
cache entry (finished digest, or the magic value for an in-progress one);
otherwise mark the id in-progress, hash the resolved definition, then
overwrite the entry with the finished digest.  An id the registry cannot
resolve would panic in the source (`expect`); the model returns the junk
digest `0`. -/
def type_hash_step (H : HashPrims) (R : Registry)
    (go : Nat → HashCache → Nat × HashCache)
    (id : Nat) (cache : HashCache) : Nat × HashCache :=
  match cache id with
  | some cachedHash => (cachedHash.hashVal, cache)
  | none =>
    let c1 := cache.insert id .Recursive
    match R id with
    | none => (0, c1)
    | some ty =>
      let (typeHash, c2) := type_def_hash_step H (go) ty c1
      (typeHash, c2.insert id (.Hash typeHash))

/-- `get_type_hash`, with fuel making the source's cache-bounded recursion
structural: each nested resolution step consumes one unit of fuel, and on
exhausted fuel the junk digest `0` is returned (the source always has
enough "fuel" because each step marks a fresh id of the finite registry). -/
def get_type_hash (H : HashPrims) (R : Registry) :
    Nat → Nat → HashCache → Nat × HashCache
  | 0 => fun _ cache => (0, cache)
  | fuel + 1 => fun id cache => type_hash_step H R (get_type_hash H R fuel) id cache

/-- `get_field_hash` at a given fuel. -/
def get_field_hash (H : HashPrims) (R : Registry) (fuel : Nat)
    (f : SField) (cache : HashCache) : Nat × HashCache :=
  field_hash_step H (get_type_hash H R fuel) f cache

/-- `get_variant_hash` at a given fuel. -/
def get_variant_hash (H : HashPrims) (R : Registry) (fuel : Nat)
    (v : SVariant) (cache : HashCache) : Nat × HashCache :=
  variant_hash_step H (get_type_hash H R fuel) v cache

/-- `get_type_def_variant_hash` at a given fuel. -/
def get_type_def_variant_hash (H : HashPrims) (R : Registry) (fuel : Nat)
    (onlyTheseVariants : Option (List String)) (variants : List SVariant)
    (cache : HashCache) : Nat × HashCache :=
  type_def_variant_hash_step H (get_type_hash H R fuel) onlyTheseVariants variants cache

/-- `get_type_def_hash` at a given fuel. -/
def get_type_def_hash (H : HashPrims) (R : Registry) (fuel : Nat)
    (td : STypeDef) (cache : HashCache) : Nat × HashCache :=
  type_def_hash_step H (get_type_hash H R fuel) td cache

/-- `frame_metadata` pallet constant: name, type id and the SCALE-encoded
value bytes. -/
structure SConstant where
  name : String
  ty : Nat
  value : List Nat

deriving DecidableEq

/-- `StorageEntryType`: plain value type, or map with hasher kinds, key
type and value type. -/
inductive SStorageEntryType where
  | plain (ty : Nat)
  | map (hashers : List Nat) (keyTy : Nat) (valueTy : Nat)

deriving DecidableEq

/-- `StorageEntryMetadata`: name, modifier tag byte, default value bytes
and the entry type. -/
structure SStorageEntry where
  name : String
  modifier : Nat
  defaultBytes : List Nat
  entryType : SStorageEntryType

deriving DecidableEq

/-- A pallet's storage descriptor: prefix string and entries. -/
structure SStorage where
  prefixName : String
  entries : List SStorageEntry

deriving DecidableEq

/-- `PalletMetadata`: name, index, optional call/event/error type ids,
constants and storage. -/
structure SPallet where
  name : String
  index : Nat
  callTy : Option Nat
  eventTy : Option Nat
  errorTy : Option Nat
  constants : List SConstant
  storage : Option SStorage

deriving DecidableEq

/-- One input of a runtime-API method: name and type id. -/
structure SMethodInput where
  name : String
  ty : Nat

deriving DecidableEq

/-- `RuntimeApiMethodMetadata`: name, ordered inputs, output type id. -/
structure SMethod where
  name : String
  inputs : List SMethodInput
  outputTy : Nat

deriving DecidableEq

/-- `RuntimeApiMetadata`: trait name and its methods. -/
structure SRuntimeApi where
  name : String
  methods : List SMethod

deriving DecidableEq

/-- One signed-extension descriptor of the extrinsic format. -/
structure SSignedExtension where
  identifier : String
  extraTy : Nat
  additionalTy : Nat

deriving DecidableEq

/-- `ExtrinsicMetadata`: version and the four part type ids plus the
declared signed extensions. -/
structure SExtrinsicMeta where
  version : Nat
  addressTy : Nat
  callTy : Nat
  signatureTy : Nat
  extraTy : Nat
  signedExtensions : List SSignedExtension

deriving DecidableEq

/-- `OuterEnumsMetadata`: the chain-wide call/event/error enum type ids. -/
structure SOuterEnums where
  callEnumTy : Nat
  eventEnumTy : Nat
  errorEnumTy : Nat

deriving DecidableEq

/-- The metadata snapshot: registry, pallets, extrinsic format descriptor,
root runtime type id, outer enums and runtime-API traits. -/
structure SMetadata where
  types : Registry
  pallets : List SPallet
  extrinsic : SExtrinsicMeta
  runtimeTy : Nat
  outerEnums : SOuterEnums
  apis : List SRuntimeApi

/-- `get_storage_entry_hash`: name hash, modifier tag digest and default
bytes hash combined, then the value type (plain) or the hasher kind tags,
key type and value type (map). -/
def get_storage_entry_hash (H : HashPrims) (R : Registry) (fuel : Nat)
    (e : SStorageEntry) (cache : HashCache) : Nat × HashCache :=
  let bytes := H.cb3 (H.hname e.name) (tagDigest e.modifier) (H.hbytes e.defaultBytes)
  match e.entryType with
  | .plain ty =>
    let (th, c1) := get_type_hash H R fuel ty cache
    (H.cb2 bytes th, c1)
  | .map hashers keyTy valueTy =>
    let bytes2 := hashers.foldl (fun b hk => H.cb2 b (tagDigest hk)) bytes
    let (kh, c1) := get_type_hash H R fuel keyTy cache
    let (vh, c2) := get_type_hash H R fuel valueTy c1
    (H.cb3 bytes2 kh vh, c2)

/-- `get_runtime_method_hash`: trait name and method name combined, then
each input's name and type in declared order, then the output type. -/
def get_runtime_method_hash (H : HashPrims) (R : Registry) (fuel : Nat)
    (traitName : String) (m : SMethod) (cache : HashCache) : Nat × HashCache :=
  let b0 := H.cb2 (H.hname traitName) (H.hname m.name)
  let (b1, c1) := m.inputs.foldl
    (fun acc inp =>
      let (th, ca) := get_type_hash H R fuel inp.ty acc.2
      (H.cb3 acc.1 (H.hname inp.name) th, ca)) (b0, cache)
  let (oth, c2) := get_type_hash H R fuel m.outputTy c1
  (H.cb2 b1 oth, c2)

/-- `get_runtime_trait_hash`: hash of the trait name combined with the
XOR-fold of the method hashes (method order intentionally irrelevant);
a fresh cache is used for the whole trait. -/
def get_runtime_trait_hash (H : HashPrims) (R : Registry) (fuel : Nat)
    (t : SRuntimeApi) : Nat :=
  let methodBytes := (t.methods.foldl
    (fun acc m =>
      let (mh, ca) := get_runtime_method_hash H R fuel t.name m acc.2
      (Nat.xor acc.1 mh, ca)) (0, emptyCache)).1
  H.cb2 (H.hname t.name) methodBytes

/-- `PalletMetadata::constant_by_name`: first constant with the name. -/
def SPallet.constantByName (p : SPallet) (n : String) : Option SConstant :=
  p.constants.find? (fun c => c.name == n)

/-- `get_constant_hash`: look the constant up by name and hash only its
type (with a fresh cache); the stored value bytes are not hashed. -/
def get_constant_hash (H : HashPrims) (R : Registry) (fuel : Nat)
    (p : SPallet) (constantName : String) : Option Nat :=
  match p.constantByName constantName with
  | none => none
  | some c => some (get_type_hash H R fuel c.ty emptyCache).1

/-- `get_pallet_hash`: call/event/error type hashes (or zero), the
XOR-fold of the constants' (name, type) hashes, and the storage hash (or
zero), all sharing one fresh cache, combined 5 ways. -/
def get_pallet_hash (H : HashPrims) (R : Registry) (fuel : Nat)
    (p : SPallet) : Nat :=
  let (callBytes, c1) := match p.callTy with
    | some t => get_type_hash H R fuel t emptyCache
    | none => (0, emptyCache)
  let (eventBytes, c2) := match p.eventTy with
    | some t => get_type_hash H R fuel t c1
    | none => (0, c1)
  let (errorBytes, c3) := match p.errorTy with
    | some t => get_type_hash H R fuel t c2
    | none => (0, c2)
  let (constantBytes, c4) := p.constants.foldl
    (fun acc c =>
      let (th, ca) := get_type_hash H R fuel c.ty acc.2
      (Nat.xor acc.1 (H.cb2 (H.hname c.name) th), ca)) (0, c3)
  let storageBytes := match p.storage with
    | some s =>
      let entriesHash := (s.entries.foldl
        (fun acc e =>
          let (eh, ca) := get_storage_entry_hash H R fuel e acc.2
          (Nat.xor acc.1 eh, ca)) (0, c4)).1
      H.cb2 (H.hname s.prefixName) entriesHash
    | none => 0
  H.cb5 callBytes eventBytes errorBytes constantBytes storageBytes

/-- `get_extrinsic_hash`: address, signature and extra type hashes (one
shared fresh cache) combined with the repeated version byte, then each
declared signed extension folded in declared order. -/
def get_extrinsic_hash (H : HashPrims) (R : Registry) (fuel : Nat)
    (ex : SExtrinsicMeta) : Nat :=
  let (addressHash, c1) := get_type_hash H R fuel ex.addressTy emptyCache
  let (signatureHash, c2) := get_type_hash H R fuel ex.signatureTy c1
  let (extraHash, c3) := get_type_hash H R fuel ex.extraTy c2
  let b0 := H.cb4 addressHash signatureHash extraHash (tagDigest ex.version)
  (ex.signedExtensions.foldl
    (fun acc se =>
      let (xh, ca) := get_type_hash H R fuel se.extraTy acc.2
      let (adh, cb) := get_type_hash H R fuel se.additionalTy ca
      (H.cb4 acc.1 (H.hname se.identifier) xh adh, cb)) (b0, c3)).1

/-- The inner `get_enum_hash` of `get_outer_enums_hash`: a variant type is
hashed with the variant filter, anything else by `get_type_hash`; each
enum gets a fresh cache.  An unresolvable id would panic in the source
(`expect`); the model returns the junk digest `0`. -/
def get_enum_hash (H : HashPrims) (R : Registry) (fuel : Nat)
    (id : Nat) (onlyTheseVariants : Option (List String)) : Nat :=
  match R id with
  | none => 0
  | some td =>
    match td with
    | .variant variants =>
      (get_type_def_variant_hash H R fuel onlyTheseVariants variants emptyCache).1
    | _ => (get_type_hash H R fuel id emptyCache).1

/-- `get_outer_enums_hash`: call, event and error enum hashes combined. -/
def get_outer_enums_hash (H : HashPrims) (R : Registry) (fuel : Nat)
    (enums : SOuterEnums) (onlyTheseVariants : Option (List String)) : Nat :=
  H.cb3 (get_enum_hash H R fuel enums.callEnumTy onlyTheseVariants)
    (get_enum_hash H R fuel enums.eventEnumTy onlyTheseVariants)
    (get_enum_hash H R fuel enums.errorEnumTy onlyTheseVariants)

/-- `MetadataHasher::hash` with its two optional allow-lists
(`only_these_pallets`, `only_these_runtime_apis`).  The runtime-API fold
mirrors the source literally: its step is
`xor(bytes, xor(bytes, get_runtime_trait_hash(api)))`. -/
def metadata_hasher_hash (H : HashPrims) (fuel : Nat) (m : SMetadata)
    (specificPallets specificRuntimeApis : Option (List String)) : Nat :=
  let palletHash := m.pallets.foldl
    (fun bytes p =>
      let shouldHash := match specificPallets with
        | some names => names.contains p.name
        | none => true
      if shouldHash then Nat.xor bytes (get_pallet_hash H m.types fuel p)
      else bytes) 0
  let apisHash := m.apis.foldl
    (fun bytes api =>
      let shouldHash := match specificRuntimeApis with
        | some names => names.contains api.name
        | none => true
      if shouldHash then
        Nat.xor bytes (Nat.xor bytes (get_runtime_trait_hash H m.types fuel api))
      else bytes) 0
  let extrinsicHash := get_extrinsic_hash H m.types fuel m.extrinsic
  let runtimeHash := (get_type_hash H m.types fuel m.runtimeTy emptyCache).1
  let outerEnumsHash := get_outer_enums_hash H m.types fuel m.outerEnums specificPallets
  H.cb5 palletHash apisHash extrinsicHash runtimeHash outerEnumsHash

/-- The error taxonomy seen by the decoder: `Error::Codec` (from `codec`
decoding, including the length-prefix strip and the pallet/variant index
bytes), `BlockError::UnsupportedVersion(n)`, and `Error::Decode` (from the
skip-decode visitor). -/
inductive EmbErr where
  | codec
  | unsupportedVersion (v : Nat)
  | decodeVisitor

deriving DecidableEq

/-- Modelled from the spec: the byte-level codec primitive is external to
this core (spec section 1 treats "byte-level encode/decode of primitives"
as assumed given), and the body of this repository's
`strip_compact_prefix` (in `core/src/utils.rs`) is not under `src/`.  It
decodes a SCALE `Compact<u64>` length prefix from the front of the bytes
and returns the decoded value together with all remaining bytes (the
value is not checked against the remaining length): a 2-bit mode tag in
the low bits of the first byte selects a 1, 2 or 4 byte little-endian
value shifted right by 2, or (mode 3) `prefix / 4 + 4` further
little-endian bytes, each with the reference codec's canonical range
check. -/
def strip_compact (bytes : List Nat) : Except EmbErr (Nat × List Nat) :=
  match bytes with
  | [] => .error .codec
  | p :: rest =>
    match p % 4 with
    | 0 => .ok (p / 4, rest)
    | 1 =>
      match rest with
      | [] => .error .codec
      | b1 :: r1 =>
        let x := (p + 256 * b1) / 4
        if 63 < x ∧ x ≤ 16383 then .ok (x, r1) else .error .codec
    | 2 =>
      match rest with
      | b1 :: b2 :: b3 :: r3 =>
        let x := (p + 256 * b1 + 65536 * b2 + 16777216 * b3) / 4
        if 16383 < x ∧ x ≤ 1073741823 then .ok (x, r3) else .error .codec
      | _ => .error .codec
    | _ =>
      let n := p / 4 + 4
      if 8 < n then .error .codec
      else if rest.length < n then .error .codec
      else
        let x := bytesToNat (rest.take n)
        let lo := if n = 4 then 1073741823 else 2 ^ (8 * (n - 1)) - 1
        if lo < x then .ok (x, rest.drop n) else .error .codec

/-- `ExtrinsicPartTypeIds`: the four type ids taken from the snapshot's
extrinsic-format descriptor (`call` is currently unused by the decoder). -/
structure ExtrinsicPartTypeIds where
  address : Nat
  call : Nat
  signature : Nat
  extra : Nat

deriving DecidableEq

/-- `ExtrinsicPartTypeIds::new`. -/
def ExtrinsicPartTypeIds.new (m : SMetadata) : ExtrinsicPartTypeIds :=
  ⟨m.extrinsic.addressTy, m.extrinsic.callTy, m.extrinsic.signatureTy,
    m.extrinsic.extraTy⟩

/-- `SignedExtrinsicDetails`: the discovered absolute byte offsets of the
address, signature and extra regions. -/
structure SignedExtrinsicDetails where
  addressStartIdx : Nat
  addressEndIdx : Nat
  signatureEndIdx : Nat
  extraEndIdx : Nat

deriving DecidableEq

/-- `ExtrinsicDetails`: the decoded-boundary record (the metadata handle
of the source, used only by name-lookup accessors, is not carried). -/
structure ExtrinsicDetails where
  index : Nat
  bytes : List Nat
  signedDetails : Option SignedExtrinsicDetails
  callStartIdx : Nat
  palletIndex : Nat
  variantIndex : Nat

deriving DecidableEq

/-- The structural skip-decode capability (the external `scale_decode`
visitor with `IgnoreVisitor`): given a type id and the cursor, advance the
cursor past one value of that type, or fail.  The spec (4.2) says it
"advances a cursor past exactly the bytes that type would occupy", so in
the source the returned cursor is a suffix of the input cursor; theorems
that need this carry it as a hypothesis on the skip function. -/
def SkipDecode : Type := Nat → List Nat → Option (List Nat)

/-- The signed branch of `decode_from`: skip address, signature and extra
in that fixed order, recording after each the absolute offset
`bytes.len() - cursor.len()`, and return the details with the remaining
cursor. -/
def decode_signed_parts (skip : SkipDecode) (ids : ExtrinsicPartTypeIds)
    (bytes cursor0 : List Nat) :
    Except EmbErr (SignedExtrinsicDetails × List Nat) :=
  let addressStartIdx := bytes.length - cursor0.length
  match skip ids.address cursor0 with
  | none => .error .decodeVisitor
  | some cursor1 =>
    let addressEndIdx := bytes.length - cursor1.length
    match skip ids.signature cursor1 with
    | none => .error .decodeVisitor
    | some cursor2 =>
      let signatureEndIdx := bytes.length - cursor2.length
      match skip ids.extra cursor2 with
      | none => .error .decodeVisitor
      | some cursor3 =>
        let extraEndIdx := bytes.length - cursor3.length
        .ok (⟨addressStartIdx, addressEndIdx, signatureEndIdx, extraEndIdx⟩, cursor3)

/-- The part of `ExtrinsicDetails::decode_from` that runs on the bytes
with the compact length prefix already removed: read the control byte
(low 7 bits version, must be 4; high bit signed flag), skip the signed
parts if signed, record the call-start offset, then decode the pallet and
variant index bytes. -/
def decode_stripped (skip : SkipDecode) (ids : ExtrinsicPartTypeIds)
    (index : Nat) (bytes : List Nat) : Except EmbErr ExtrinsicDetails :=
  match bytes with
  | [] => .error .codec
  | firstByte :: _ =>
    let version := Nat.land firstByte 127
    if version ≠ 4 then .error (.unsupportedVersion version)
    else
      let isSigned := Nat.land firstByte 128 ≠ 0
      let cursor0 := bytes.drop 1
      let signedRes : Except EmbErr (Option SignedExtrinsicDetails × List Nat) :=
        if isSigned then
          match decode_signed_parts skip ids bytes cursor0 with
          | .error e => .error e
          | .ok (sd, cur) => .ok (some sd, cur)
        else .ok (none, cursor0)
      match signedRes with
      | .error e => .error e
      | .ok (signedDetails, cursor) =>
        let callStartIdx := bytes.length - cursor.length
        match bytes.drop callStartIdx with
        | [] => .error .codec
        | palletIndex :: r1 =>
          match r1 with
          | [] => .error .codec
          | variantIndex :: _ =>
            .ok ⟨index, bytes, signedDetails, callStartIdx, palletIndex, variantIndex⟩

/-- `ExtrinsicDetails::decode_from`: first remove the compact-encoded
length prefix from the supplied bytes, then decode the remainder. -/
def decode_from (skip : SkipDecode) (ids : ExtrinsicPartTypeIds)
    (index : Nat) (extrinsicBytes : List Nat) : Except EmbErr ExtrinsicDetails :=
  match strip_compact extrinsicBytes with
  | .error e => .error e
  | .ok (_, bytes) => decode_stripped skip ids index bytes

/-- Rust slice `&l[a..b]`. -/
def sliceList (l : List Nat) (a b : Nat) : List Nat := (l.take b).drop a

/-- `ExtrinsicDetails::is_signed`. -/
def ExtrinsicDetails.isSigned (d : ExtrinsicDetails) : Bool :=
  d.signedDetails.isSome

/-- `ExtrinsicDetails::call_bytes`: from the call-start offset to the end. -/
def ExtrinsicDetails.callBytes (d : ExtrinsicDetails) : List Nat :=
  d.bytes.drop d.callStartIdx

/-- `ExtrinsicDetails::field_bytes`: the call bytes minus the two leading
pallet-index and variant-index bytes. -/
def ExtrinsicDetails.fieldBytes (d : ExtrinsicDetails) : List Nat :=
  d.callBytes.drop 2

/-- `ExtrinsicDetails::address_bytes`. -/
def ExtrinsicDetails.addressBytes (d : ExtrinsicDetails) : Option (List Nat) :=
  d.signedDetails.map (fun e => sliceList d.bytes e.addressStartIdx e.addressEndIdx)

/-- `ExtrinsicDetails::signature_bytes`. -/
def ExtrinsicDetails.signatureBytes (d : ExtrinsicDetails) : Option (List Nat) :=
  d.signedDetails.map (fun e => sliceList d.bytes e.addressEndIdx e.signatureEndIdx)

/-- `ExtrinsicDetails::signed_extensions_bytes`. -/
def ExtrinsicDetails.signedExtensionsBytes (d : ExtrinsicDetails) : Option (List Nat) :=
  d.signedDetails.map (fun e => sliceList d.bytes e.signatureEndIdx e.extraEndIdx)

/-- The element sequence produced by the iterator of `Extrinsics::iter`:
starting from index `i`, decode each blob in order; on a success the index
advances, on the first error the index jumps to the end so the error is
yielded once and nothing follows it. -/
def iter_results (dec : Nat → List Nat → Except EmbErr ExtrinsicDetails) :
    Nat → List (List Nat) → List (Except EmbErr ExtrinsicDetails)
  | _, [] => []
  | i, blob :: rest =>
    match dec i blob with
    | .ok d => .ok d :: iter_results dec (i + 1) rest
    | .error e => [.error e]

/-- `Extrinsics::iter` over a block's raw extrinsic blobs, decoding with
`ExtrinsicDetails::decode_from` from index 0. -/
def extrinsics_iter (skip : SkipDecode) (ids : ExtrinsicPartTypeIds)
    (blobs : List (List Nat)) : List (Except EmbErr ExtrinsicDetails) :=
  iter_results (fun i b => decode_from skip ids i b) 0 blobs

/-- The decoder contract as the spec's words state it (spec 4.2): the
supplied bytes already have the length prefix stripped by the caller, so
their first byte is the control byte and decoding proceeds from byte
index 1 onward.  Stated for comparison with `decode_from` (claim C2). -/
def decode_from_spec_words (skip : SkipDecode) (ids : ExtrinsicPartTypeIds)
    (index : Nat) (bytes : List Nat) : Except EmbErr ExtrinsicDetails :=
  decode_stripped skip ids index bytes

/-- A concrete, collision-free instantiation of the hash primitives:
names hash to the value of their byte string, and the combiners are
nested Cantor-style pairings (injective in every argument). -/
def pairH : HashPrims :=
  ⟨fun s => bytesToNat (s.data.map Char.toNat), bytesToNat, Nat.pair,
    fun a b c => Nat.pair a (Nat.pair b c),
    fun a b c d => Nat.pair a (Nat.pair b (Nat.pair c d)),
    fun a b c d e => Nat.pair a (Nat.pair b (Nat.pair c (Nat.pair d e)))⟩

/-- An empty registry. -/
def emptyRegistry : Registry := fun _ => none

/-- A skip-decode capability that always fails (never consulted on the
unsigned decoding paths where it is used). -/
def skipNone : SkipDecode := fun _ _ => none

/-- A skip-decode capability that consumes exactly one byte per part. -/
def skipOne : SkipDecode := fun _ l => some (l.drop 1)

/-- Concrete part ids. -/
def ids0 : ExtrinsicPartTypeIds := ⟨0, 0, 0, 0⟩

/-- Cycle scenario: type 0 is a composite with fields `x` (of type 1) and
`y` (of type 2), where types 1 and 2 are mutually recursive composites
(`A` with field `b : B`, `B` with field `a : A`). -/
def regP : Registry := fun i =>
  if i = 0 then some (.composite [⟨some "x", 1⟩, ⟨some "y", 2⟩])
  else if i = 1 then some (.composite [⟨some "b", 2⟩])
  else if i = 2 then some (.composite [⟨some "a", 1⟩])
  else none

/-- `regP` with the two fields of type 0 swapped (all else unchanged). -/
def regPswap : Registry := fun i =>
  if i = 0 then some (.composite [⟨some "y", 2⟩, ⟨some "x", 1⟩])
  else if i = 1 then some (.composite [⟨some "b", 2⟩])
  else if i = 2 then some (.composite [⟨some "a", 1⟩])
  else none

/-- A registry resolving every id to a primitive type. -/
def regPrim : Registry := fun _ => some (.primitive 0)

/-- A minimal extrinsic-format descriptor. -/
def exMeta0 : SExtrinsicMeta := ⟨4, 0, 0, 0, 0, []⟩

/-- Metadata with two runtime-API traits `A` and `BB`, in that order. -/
def mC1 : SMetadata := ⟨regPrim, [], exMeta0, 0, ⟨0, 0, 0⟩, [⟨"A", []⟩, ⟨"BB", []⟩]⟩

/-- `mC1` with the two runtime-API traits swapped. -/
def mC1swap : SMetadata := ⟨regPrim, [], exMeta0, 0, ⟨0, 0, 0⟩, [⟨"BB", []⟩, ⟨"A", []⟩]⟩

/-- `mC1` with only its last runtime-API trait. -/
def mC1last : SMetadata := ⟨regPrim, [], exMeta0, 0, ⟨0, 0, 0⟩, [⟨"BB", []⟩]⟩

/-- A cache holding a finished hash for type ids 5 and 6. -/
def cacheTwo : HashCache := fun t =>
  if t = 5 then some (.Hash 77) else if t = 6 then some (.Hash 88) else none

/-- A cache holding an in-progress marker for type id 7. -/
def cacheRec7 : HashCache := fun t =>
  if t = 7 then some .Recursive else none

deriving instance DecidableEq for Except

/-- `SPallet` with every constant's stored value bytes replaced (names,
types and everything else unchanged). -/
def SPallet.mapConstantValues (p : SPallet) (g : SConstant → List Nat) : SPallet :=
  ⟨p.name, p.index, p.callTy, p.eventTy, p.errorTy,
    p.constants.map (fun c => ⟨c.name, c.ty, g c⟩), p.storage⟩

/-- The recursive pair `A = { b : B }`, `B = { a : A }` with `A` at the
lower type id. -/
def regAB1 : Registry := fun i =>
  if i = 0 then some (.composite [⟨some "b", 1⟩])
  else if i = 1 then some (.composite [⟨some "a", 0⟩])
  else none

/-- The same logical schema with `A` at the higher type id. -/
def regAB2 : Registry := fun i =>
  if i = 0 then some (.composite [⟨some "a", 1⟩])
  else if i = 1 then some (.composite [⟨some "b", 0⟩])
  else none

/-- The digest recorded in the cache for a type id (zero if absent; only
used under a hypothesis that the entry is present). -/
def cacheVal (cache : HashCache) (ty : Nat) : Nat :=
  match cache ty with
  | some ch => ch.hashVal
  | none => 0

/-- The value `get_field_hash` computes when the field's type hash is
already in the cache. -/
def pure_field_hash (H : HashPrims) (cache : HashCache) (f : SField) : Nat :=
  H.cb2 (field_name_hash H f) (cacheVal cache f.ty)

/-- The value `get_variant_hash` computes when all the variant's field
type hashes are already in the cache. -/
def pure_variant_hash (H : HashPrims) (cache : HashCache) (v : SVariant) : Nat :=
  H.cb2 (H.hname v.name)
    (v.fields.foldl (fun x f => Nat.xor x (pure_field_hash H cache f)) 0)

/-- A block of five raw blobs in which the blob at index 2 is malformed
(version byte 3) and all others are well-formed. -/
def blobs5 : List (List Nat) :=
  [[16, 4, 0, 2], [16, 4, 0, 2], [4, 3], [16, 4, 0, 2], [16, 4, 0, 2]]

/-- The details each well-formed blob of `blobs5` decodes to. -/
def okdW : Nat → ExtrinsicDetails := fun i => ⟨i, [4, 0, 2], none, 1, 0, 2⟩

/-! ## Theorems -/

theorem get_type_hash_succ (H : HashPrims) (R : Registry) (fuel id : Nat)
    (cache : HashCache) :
    get_type_hash H R (fuel + 1) id cache
      = type_hash_step H R (get_type_hash H R fuel) id cache := rfl

/-- A cache hit (finished or in-progress) returns the entry's derived
hash and leaves the cache untouched. -/
theorem get_type_hash_cache_hit (H : HashPrims) (R : Registry) (fuel id : Nat)
    (cache : HashCache) (ch : CachedHash) (h : cache id = some ch) :
    get_type_hash H R (fuel + 1) id cache = (ch.hashVal, cache) := by
  rw [get_type_hash_succ]
  unfold type_hash_step
  rw [h]

/-- `find?` of a name-preserving, type-preserving map of the constants. -/
theorem find?_map_const (g : SConstant → List Nat) (n : String) :
    ∀ l : List SConstant,
      (l.map (fun c => (⟨c.name, c.ty, g c⟩ : SConstant))).find?
          (fun c => c.name == n)
        = (l.find? (fun c => c.name == n)).map
            (fun c => (⟨c.name, c.ty, g c⟩ : SConstant))
  | [] => rfl
  | c :: t => by
    simp only [List.map_cons, List.find?]
    cases hc : (c.name == n)
    · simpa [hc] using find?_map_const g n t
    · simp [hc]

/-- C1.  The claim says the Metadata Hasher digest is invariant under
permutation of the runtime-API trait list because the runtime-API facet
is an XOR-fold over the trait hashes.  The code's fold step is
`xor(bytes, xor(bytes, get_runtime_trait_hash(api)))`, which equals the
new trait hash alone, so the facet keeps only the last included trait
hash, contradicting the code's own order-independence comment: the digest
of a snapshot with traits `[A, BB]` equals the digest with the single
trait `[BB]`, and swapping the two traits changes the digest. -/
theorem c1_runtime_api_facet_not_order_independent :
    metadata_hasher_hash pairH 1 mC1 none none
        = metadata_hasher_hash pairH 1 mC1last none none
      ∧ metadata_hasher_hash pairH 1 mC1 none none
        ≠ metadata_hasher_hash pairH 1 mC1swap none none := by
  constructor
  · decide
  · decide

/-- C2 (counterexample).  The claim says the supplied byte slice has the
length prefix already stripped, so its first byte is the control byte
whose low 7 bits must be the version 4.  On input `[16, 4, 0, 2]` the
first byte's version field is 16, yet `decode_from` succeeds: it first
strips the compact length prefix `16` itself and reads `4` as the control
byte. -/
theorem c2_counterexample_prefix_stripped_inside :
    decode_from skipNone ids0 0 [16, 4, 0, 2]
        = .ok ⟨0, [4, 0, 2], none, 1, 0, 2⟩
      ∧ Nat.land 16 127 ≠ 4 := by
  exact ⟨rfl, by decide⟩

/-- C2 (amended).  `decode_from` strips the compact length prefix from
its input itself; on the stripped remainder the first byte is the control
byte (low 7 bits the format version, high bit the signed flag) and
decoding proceeds from byte index 1 of the stripped bytes onward, exactly
as the spec describes for prefix-free input. -/
theorem c2_decode_from_strips_then_parses (skip : SkipDecode)
    (ids : ExtrinsicPartTypeIds) (index : Nat) (input : List Nat) :
    decode_from skip ids index input
      = match strip_compact input with
        | .error e => .error e
        | .ok (_, bytes) => decode_from_spec_words skip ids index bytes := rfl

/-- C4.  `decode_from` on an empty byte buffer fails with a codec
(decode) error, and on any input whose control byte (the first byte after
the stripped length prefix) has version field 3 it fails with the
distinct `UnsupportedVersion(3)` error; no details value is returned in
either case. -/
theorem c4_decode_from_error_cases :
    (∀ (skip : SkipDecode) (ids : ExtrinsicPartTypeIds) (index : Nat),
      decode_from skip ids index [] = .error .codec)
    ∧ (∀ (skip : SkipDecode) (ids : ExtrinsicPartTypeIds) (index n b : Nat)
        (rest input : List Nat),
        strip_compact input = .ok (n, b :: rest) → Nat.land b 127 = 3 →
        decode_from skip ids index input = .error (.unsupportedVersion 3)) := by
  constructor
  · intro skip ids index
    rfl
  · intro skip ids index n b rest input hstrip hver
    unfold decode_from
    rw [hstrip]
    unfold decode_stripped
    simp only [hver]
    rfl

/-- C4 (witness).  On the concrete input `[4, 3]` (the compact prefix `1`
followed by the version-3 control byte, as in the repository's own test)
`decode_from` fails with `UnsupportedVersion(3)`. -/
theorem c4_decode_from_error_cases_witness :
    decode_from skipNone ids0 0 [4, 3] = .error (.unsupportedVersion 3) :=
  c4_decode_from_error_cases.2 skipNone ids0 0 1 3 [] [4, 3] rfl (by decide)

/-- C7.  Resolving a type id whose cache entry is the in-progress marker
returns the one fixed sentinel digest `[123; 32]` — the same constant for
every cyclic back-reference, independent of the hash primitives, the
registry, the id and the rest of the cache — and returns the cache
unchanged, so the entry is not overwritten with a finished digest. -/
theorem c7_in_progress_returns_fixed_sentinel (H : HashPrims) (R : Registry)
    (fuel id : Nat) (cache : HashCache)
    (h : cache id = some .Recursive) :
    get_type_hash H R (fuel + 1) id cache = (tagDigest 123, cache) :=
  get_type_hash_cache_hit H R fuel id cache .Recursive h

/-- C7 (witness).  Concretely, with the cache marking type id 7 as
in-progress, `get_type_hash` returns the sentinel digest and the
untouched cache. -/
theorem c7_in_progress_returns_fixed_sentinel_witness :
    get_type_hash pairH emptyRegistry 1 7 cacheRec7 = (tagDigest 123, cacheRec7) :=
  c7_in_progress_returns_fixed_sentinel pairH emptyRegistry 0 7 cacheRec7 rfl

/-- C8.  A constant's hash is exactly the hash of the constant's type and
the stored value bytes do not influence it: replacing every constant's
value bytes arbitrarily (names and types unchanged) leaves
`get_constant_hash` unchanged, and `get_constant_hash` returns
`get_type_hash` of the type id of the constant found by name (with a
fresh cache). -/
theorem c8_constant_hash_ignores_value (H : HashPrims) (R : Registry)
    (fuel : Nat) (p : SPallet) (g : SConstant → List Nat) (n : String) :
    get_constant_hash H R fuel (p.mapConstantValues g) n
        = get_constant_hash H R fuel p n
      ∧ get_constant_hash H R fuel p n
        = (p.constantByName n).map
            (fun c => (get_type_hash H R fuel c.ty emptyCache).1) := by
  constructor
  · unfold get_constant_hash SPallet.constantByName SPallet.mapConstantValues
    rw [find?_map_const]
    cases p.constants.find? (fun c => c.name == n) <;> rfl
  · unfold get_constant_hash
    cases p.constantByName n <;> rfl

/-- Successful `decode_signed_parts` means the three skips succeeded in
order and the recorded offsets are the cursor-position differences. -/
theorem decode_signed_parts_ok (skip : SkipDecode) (ids : ExtrinsicPartTypeIds)
    (bytes cursor0 : List Nat) (sd : SignedExtrinsicDetails) (cur : List Nat)
    (h : decode_signed_parts skip ids bytes cursor0 = .ok (sd, cur)) :
    ∃ c1 c2 c3,
      skip ids.address cursor0 = some c1 ∧
      skip ids.signature c1 = some c2 ∧
      skip ids.extra c2 = some c3 ∧
      sd = ⟨bytes.length - cursor0.length, bytes.length - c1.length,
            bytes.length - c2.length, bytes.length - c3.length⟩ ∧
      cur = c3 := by
  simp only [decode_signed_parts] at h
  cases h1 : skip ids.address cursor0 with
  | none =>
    simp only [h1] at h
    exact Except.noConfusion h
  | some c1 =>
    simp only [h1] at h
    cases h2 : skip ids.signature c1 with
    | none =>
      simp only [h2] at h
      exact Except.noConfusion h
    | some c2 =>
      simp only [h2] at h
      cases h3 : skip ids.extra c2 with
      | none =>
        simp only [h3] at h
        exact Except.noConfusion h
      | some c3 =>
        simp only [h3, Except.ok.injEq, Prod.mk.injEq] at h
        exact ⟨c1, c2, c3, rfl, h2, h3, h.1.symm, h.2.symm⟩

/-- What a successful `decode_stripped` guarantees: the details carry the
supplied index and bytes, at least two bytes exist from the call-start
offset (the decoded pallet and variant index bytes), and the recorded
offsets are the cursor positions of the control byte and of the three
skip-decodes (if signed). -/
theorem decode_stripped_ok_spec (skip : SkipDecode) (ids : ExtrinsicPartTypeIds)
    (index : Nat) (bytes : List Nat) (d : ExtrinsicDetails)
    (h : decode_stripped skip ids index bytes = .ok d) :
    d.index = index ∧ d.bytes = bytes ∧ 1 ≤ bytes.length ∧
    (∃ rest, bytes.drop d.callStartIdx
        = d.palletIndex :: d.variantIndex :: rest) ∧
    (d.signedDetails = none →
      d.callStartIdx = bytes.length - (bytes.drop 1).length) ∧
    (∀ s, d.signedDetails = some s → ∃ c1 c2 c3,
      skip ids.address (bytes.drop 1) = some c1 ∧
      skip ids.signature c1 = some c2 ∧
      skip ids.extra c2 = some c3 ∧
      s.addressStartIdx = bytes.length - (bytes.drop 1).length ∧
      s.addressEndIdx = bytes.length - c1.length ∧
      s.signatureEndIdx = bytes.length - c2.length ∧
      s.extraEndIdx = bytes.length - c3.length ∧
      d.callStartIdx = bytes.length - c3.length) := by
  cases bytes with
  | nil => exact Except.noConfusion h
  | cons fb bs =>
    simp only [decode_stripped] at h
    by_cases hv : Nat.land fb 127 ≠ 4
    · rw [if_pos hv] at h
      exact Except.noConfusion h
    · rw [if_neg hv] at h
      by_cases hsg : Nat.land fb 128 ≠ 0
      · rw [if_pos hsg] at h
        cases hp : decode_signed_parts skip ids (fb :: bs) ((fb :: bs).drop 1) with
        | error e =>
          simp only [hp] at h
          exact Except.noConfusion h
        | ok pr =>
          obtain ⟨sd, cur⟩ := pr
          simp only [hp] at h
          obtain ⟨c1, c2, c3, h1, h2, h3, hsd, hcur⟩ :=
            decode_signed_parts_ok skip ids (fb :: bs) ((fb :: bs).drop 1) sd cur hp
          rw [hcur] at h
          cases hdrop : (fb :: bs).drop ((fb :: bs).length - c3.length) with
          | nil =>
            simp only [hdrop] at h
            exact Except.noConfusion h
          | cons p r1 =>
            cases r1 with
            | nil =>
              simp only [hdrop] at h
              exact Except.noConfusion h
            | cons v rest =>
              simp only [hdrop, Except.ok.injEq] at h
              subst h
              subst hsd
              refine ⟨rfl, rfl, by simp, ⟨rest, hdrop⟩, ?_, ?_⟩
              · intro hnone
                exact Option.noConfusion hnone
              · intro s hs
                injection hs with hs
                subst hs
                exact ⟨c1, c2, c3, h1, h2, h3, rfl, rfl, rfl, rfl, rfl⟩
      · rw [if_neg hsg] at h
        simp only at h
        cases hdrop : (fb :: bs).drop ((fb :: bs).length - ((fb :: bs).drop 1).length) with
        | nil =>
          simp only [hdrop] at h
          exact Except.noConfusion h
        | cons p r1 =>
          cases r1 with
          | nil =>
            simp only [hdrop] at h
            exact Except.noConfusion h
          | cons v rest =>
            simp only [hdrop, Except.ok.injEq] at h
            subst h
            refine ⟨rfl, rfl, by simp, ⟨rest, hdrop⟩, fun _ => rfl, ?_⟩
            intro s hs
            exact Option.noConfusion hs

/-- C9.  Every successfully decoded `ExtrinsicDetails` has at least the
two decoded pallet-index and variant-index bytes from the call-start
offset onward, so `call_bytes()` has length at least 2 and `field_bytes()`
(the slice of the call bytes from offset 2) is always in bounds: the call
bytes are exactly the pallet index byte, the variant index byte, then the
field bytes. -/
theorem c9_call_bytes_at_least_two (skip : SkipDecode)
    (ids : ExtrinsicPartTypeIds) (index : Nat) (input : List Nat)
    (d : ExtrinsicDetails) (h : decode_from skip ids index input = .ok d) :
    d.callBytes = d.palletIndex :: d.variantIndex :: d.fieldBytes
    ∧ 2 ≤ d.callBytes.length := by
  unfold decode_from at h
  cases hs : strip_compact input with
  | error e => rw [hs] at h; exact Except.noConfusion h
  | ok pr =>
    obtain ⟨len, bytes⟩ := pr
    rw [hs] at h
    obtain ⟨-, hb, -, ⟨rest, hdrop⟩, -, -⟩ :=
      decode_stripped_ok_spec skip ids index bytes d h
    have hcb : d.callBytes = d.palletIndex :: d.variantIndex :: rest := by
      unfold ExtrinsicDetails.callBytes
      rw [hb, hdrop]
    constructor
    · rw [hcb]
      unfold ExtrinsicDetails.fieldBytes
      rw [hcb]
      rfl
    · rw [hcb]
      simp

/-- C9 (witness).  The concrete unsigned extrinsic `[16, 4, 0, 2]`
decodes successfully and its call bytes are the pallet byte `0`, the
variant byte `2` and the (empty) field bytes. -/
theorem c9_call_bytes_at_least_two_witness :
    (⟨0, [4, 0, 2], none, 1, 0, 2⟩ : ExtrinsicDetails).callBytes
        = (⟨0, [4, 0, 2], none, 1, 0, 2⟩ : ExtrinsicDetails).palletIndex
            :: (⟨0, [4, 0, 2], none, 1, 0, 2⟩ : ExtrinsicDetails).variantIndex
            :: (⟨0, [4, 0, 2], none, 1, 0, 2⟩ : ExtrinsicDetails).fieldBytes
      ∧ 2 ≤ (⟨0, [4, 0, 2], none, 1, 0, 2⟩ : ExtrinsicDetails).callBytes.length :=
  c9_call_bytes_at_least_two skipNone ids0 0 [16, 4, 0, 2] _ rfl

/-- Adjacent slices concatenate. -/
theorem sliceList_append (l : List Nat) (a b c : Nat) (hab : a ≤ b)
    (hbc : b ≤ c) : sliceList l a b ++ sliceList l b c = sliceList l a c := by
  unfold sliceList
  rw [List.drop_take, List.drop_take, List.drop_take]
  have hd : l.drop b = (l.drop a).drop (b - a) := by
    rw [List.drop_drop]
    congr 1
    omega
  rw [hd, ← List.take_add]
  congr 1
  omega

/-- An increasing chain of offsets starting after the first byte cuts the
list into a partition. -/
theorem slice_partition (l : List Nat) (ae se ee : Nat) (h1 : 1 ≤ ae)
    (h2 : ae ≤ se) (h3 : se ≤ ee) :
    l.take 1 ++ sliceList l 1 ae ++ sliceList l ae se ++ sliceList l se ee
      ++ l.drop ee = l := by
  have t01 : l.take 1 = sliceList l 0 1 := by simp [sliceList]
  have hee : sliceList l 0 ee ++ l.drop ee = l := by
    simp [sliceList]
  have a1 : sliceList l 0 1 ++ sliceList l 1 ae = sliceList l 0 ae :=
    sliceList_append l 0 1 ae (by omega) h1
  have a2 : sliceList l 0 ae ++ sliceList l ae se = sliceList l 0 se :=
    sliceList_append l 0 ae se (by omega) h2
  have a3 : sliceList l 0 se ++ sliceList l se ee = sliceList l 0 ee :=
    sliceList_append l 0 se ee (by omega) h3
  rw [t01]
  rw [a1, a2, a3]
  exact hee

/-- Evaluation of `get_type_hash` on a pair of mutually recursive
composites (`A` with one field of type `B`, `B` with one field of type
`A`): with any fuel of at least 3 the computation finishes, and the
result is a closed expression in the hash primitives and the two field
names only — the numeric type ids do not appear in it. -/
theorem mutual_rec_eval (H : HashPrims) (R : Registry) (idA idB : Nat)
    (nA nB : Option String) (hAB : idA ≠ idB)
    (h1 : R idA = some (.composite [⟨nA, idB⟩]))
    (h2 : R idB = some (.composite [⟨nB, idA⟩])) (fuel : Nat) :
    (get_type_hash H R (fuel + 3) idA emptyCache).1
      = H.cb2 (tagDigest 0) (Nat.xor 0 (H.cb2 (field_name_hash H ⟨nA, idB⟩)
          (H.cb2 (tagDigest 0) (Nat.xor 0 (H.cb2 (field_name_hash H ⟨nB, idA⟩)
            (tagDigest 123)))))) := by
  have hBA : idB ≠ idA := Ne.symm hAB
  have e1 : get_type_hash H R (fuel + 3) idA emptyCache
      = type_hash_step H R (get_type_hash H R (fuel + 2)) idA emptyCache := rfl
  have e2 : ∀ c, get_type_hash H R (fuel + 2) idB c
      = type_hash_step H R (get_type_hash H R (fuel + 1)) idB c := fun _ => rfl
  have e3 : ∀ c, get_type_hash H R (fuel + 1) idA c
      = type_hash_step H R (get_type_hash H R fuel) idA c := fun _ => rfl
  rw [e1]
  simp only [type_hash_step, emptyCache, h1, h2, type_def_hash_step, List.foldl,
    field_hash_step, HashCache.insert, hAB, hBA, CachedHash.hashVal, e2, e3,
    if_true, if_false, eq_self_iff_true, ne_eq, ite_true, ite_false]

/-- C6.  For two mutually recursive composite types (`A` containing a
field of type `B`, `B` containing a field of type `A`) in any registry,
`get_type_hash` terminates — every fuel of at least 3 returns the same
digest, i.e. the in-progress marker cuts the recursion — and the digest
of `A` is the same under any assignment of the two type ids (in
particular whether `A` is registered at the lower id and `B` at the
higher, or vice versa): it depends only on the field names. -/
theorem c6_mutual_recursion_id_independent (H : HashPrims) (R R' : Registry)
    (idA idB idA' idB' : Nat) (nA nB : Option String)
    (hAB : idA ≠ idB) (hAB' : idA' ≠ idB')
    (h1 : R idA = some (.composite [⟨nA, idB⟩]))
    (h2 : R idB = some (.composite [⟨nB, idA⟩]))
    (h1' : R' idA' = some (.composite [⟨nA, idB'⟩]))
    (h2' : R' idB' = some (.composite [⟨nB, idA'⟩]))
    (fuel fuel' : Nat) :
    (get_type_hash H R (fuel + 3) idA emptyCache).1
      = (get_type_hash H R' (fuel' + 3) idA' emptyCache).1 := by
  rw [mutual_rec_eval H R idA idB nA nB hAB h1 h2 fuel,
    mutual_rec_eval H R' idA' idB' nA nB hAB' h1' h2' fuel']
  simp only [field_name_hash]

/-- C6 (witness). Concretely, the hash of `A` over `regAB1` (with fuel 3,
so the computation finishes) equals the hash of `A` over `regAB2`. -/
theorem c6_mutual_recursion_id_independent_witness :
    (get_type_hash pairH regAB1 3 0 emptyCache).1
      = (get_type_hash pairH regAB2 3 1 emptyCache).1 :=
  c6_mutual_recursion_id_independent pairH regAB1 regAB2 0 1 1 0
    (some "b") (some "a") (by decide) (by decide) rfl rfl rfl rfl 0 0

theorem field_hash_step_cached (H : HashPrims) (R : Registry) (fuel : Nat)
    (f : SField) (cache : HashCache) (h : (cache f.ty).isSome) :
    field_hash_step H (get_type_hash H R (fuel + 1)) f cache
      = (pure_field_hash H cache f, cache) := by
  obtain ⟨ch, hch⟩ := Option.isSome_iff_exists.mp h
  unfold field_hash_step pure_field_hash cacheVal
  rw [get_type_hash_cache_hit H R fuel f.ty cache ch hch, hch]

/-- With every field's type hash cached, the threaded field fold is the
pure XOR-fold and leaves the cache unchanged. -/
theorem fields_fold_cached (H : HashPrims) (R : Registry) (fuel : Nat)
    (cache : HashCache) (fields : List SField)
    (hc : ∀ f ∈ fields, (cache f.ty).isSome) (a : Nat) :
    fields.foldl (fun acc f =>
        let (fh, ca) := field_hash_step H (get_type_hash H R (fuel + 1)) f acc.2
        (Nat.xor acc.1 fh, ca)) (a, cache)
      = (fields.foldl (fun x f => Nat.xor x (pure_field_hash H cache f)) a,
          cache) := by
  induction fields generalizing a with
  | nil => rfl
  | cons f t ih =>
    simp only [List.foldl]
    rw [field_hash_step_cached H R fuel f cache (hc f (by simp))]
    exact ih (fun g hg => hc g (by simp [hg])) _

theorem variant_hash_step_cached (H : HashPrims) (R : Registry) (fuel : Nat)
    (v : SVariant) (cache : HashCache)
    (hc : ∀ f ∈ v.fields, (cache f.ty).isSome) :
    variant_hash_step H (get_type_hash H R (fuel + 1)) v cache
      = (pure_variant_hash H cache v, cache) := by
  unfold variant_hash_step pure_variant_hash
  rw [fields_fold_cached H R fuel cache v.fields hc 0]

/-- With every field's type hash cached, the threaded variant fold is the
pure XOR-fold and leaves the cache unchanged. -/
theorem variants_fold_cached (H : HashPrims) (R : Registry) (fuel : Nat)
    (cache : HashCache) (vars : List SVariant)
    (hc : ∀ v ∈ vars, ∀ f ∈ v.fields, (cache f.ty).isSome) (a : Nat) :
    vars.foldl (fun acc v =>
        let (vh, ca) := variant_hash_step H (get_type_hash H R (fuel + 1)) v acc.2
        (Nat.xor acc.1 vh, ca)) (a, cache)
      = (vars.foldl (fun x v => Nat.xor x (pure_variant_hash H cache v)) a,
          cache) := by
  induction vars generalizing a with
  | nil => rfl
  | cons v t ih =>
    simp only [List.foldl]
    rw [variant_hash_step_cached H R fuel v cache (hc v (by simp))]
    exact ih (fun w hw g hg => hc w (by simp [hw]) g hg) _

/-- Evaluation of a composite's definition hash with all field type
hashes cached. -/
theorem composite_def_eval (H : HashPrims) (R : Registry) (fuel : Nat)
    (cache : HashCache) (fields : List SField)
    (hc : ∀ f ∈ fields, (cache f.ty).isSome) :
    get_type_def_hash H R (fuel + 1) (.composite fields) cache
      = (H.cb2 (tagDigest 0)
          (fields.foldl (fun x f => Nat.xor x (pure_field_hash H cache f)) 0),
         cache) := by
  have h0 : get_type_def_hash H R (fuel + 1) (.composite fields) cache
      = (let (fb, c1) := fields.foldl (fun acc f =>
            let (fh, ca) := field_hash_step H (get_type_hash H R (fuel + 1)) f acc.2
            (Nat.xor acc.1 fh, ca)) (0, cache)
         (H.cb2 (tagDigest 0) fb, c1)) := rfl
  rw [h0, fields_fold_cached H R fuel cache fields hc 0]

/-- Evaluation of an enum's definition hash with all field type hashes
cached. -/
theorem variant_def_eval (H : HashPrims) (R : Registry) (fuel : Nat)
    (cache : HashCache) (vars : List SVariant)
    (hc : ∀ v ∈ vars, ∀ f ∈ v.fields, (cache f.ty).isSome) :
    get_type_def_hash H R (fuel + 1) (.variant vars) cache
      = (H.cb2 (tagDigest 1)
          (vars.foldl (fun x v => Nat.xor x (pure_variant_hash H cache v)) 0),
         cache) := by
  have hplain : get_type_def_hash H R (fuel + 1) (.variant vars) cache
      = (let (vb, c1) := vars.foldl (fun acc v =>
            let (vh, ca) := variant_hash_step H (get_type_hash H R (fuel + 1)) v acc.2
            (Nat.xor acc.1 vh, ca)) (0, cache)
         (H.cb2 (tagDigest 1) vb, c1)) := rfl
  rw [hplain, variants_fold_cached H R fuel cache vars hc 0]

theorem natxor_eq (a b : Nat) : Nat.xor a b = a ^^^ b := rfl

theorem xor_foldl_shift {α : Type} (g : α → Nat) (l : List α) (a : Nat) :
    l.foldl (fun x y => Nat.xor x (g y)) a
      = Nat.xor a (l.foldl (fun x y => Nat.xor x (g y)) 0) := by
  induction l generalizing a with
  | nil => simp only [List.foldl, natxor_eq, Nat.xor_zero]
  | cons y t ih =>
    simp only [List.foldl]
    rw [ih (Nat.xor a (g y)), ih (Nat.xor 0 (g y))]
    simp only [natxor_eq, Nat.zero_xor, Nat.xor_assoc]

theorem xor_foldl_perm {α : Type} (g : α → Nat) (l l' : List α)
    (p : l.Perm l') (a : Nat) :
    l.foldl (fun x y => Nat.xor x (g y)) a
      = l'.foldl (fun x y => Nat.xor x (g y)) a := by
  have inst : RightCommutative (fun x y => Nat.xor x (g y)) :=
    ⟨fun b a₁ a₂ => by
      simp only [natxor_eq, Nat.xor_assoc]
      rw [Nat.xor_comm (g a₁)]⟩
  exact p.foldl_eq a

theorem xor_left_cancel (a x y : Nat) (h : Nat.xor a x = Nat.xor a y) :
    x = y := by
  have h1 := congrArg (Nat.xor a) h
  simpa only [natxor_eq, ← Nat.xor_assoc, Nat.xor_self, Nat.zero_xor] using h1

theorem xor_right_cancel (b x y : Nat) (h : Nat.xor x b = Nat.xor y b) :
    x = y := by
  apply xor_left_cancel b
  show (b ^^^ x : Nat) = b ^^^ y
  rw [Nat.xor_comm b x, Nat.xor_comm b y]
  exact h

/-- XOR-fold over a list with one element replaced: equality of the folds
forces equality of the two elements' values. -/
theorem xor_foldl_replace {α : Type} (g : α → Nat) (pre post : List α)
    (x y : α)
    (h : (pre ++ x :: post).foldl (fun a z => Nat.xor a (g z)) 0
        = (pre ++ y :: post).foldl (fun a z => Nat.xor a (g z)) 0) :
    g x = g y := by
  rw [List.foldl_append, List.foldl_append] at h
  simp only [List.foldl] at h
  rw [xor_foldl_shift g post
      (Nat.xor (pre.foldl (fun a z => Nat.xor a (g z)) 0) (g x)),
    xor_foldl_shift g post
      (Nat.xor (pre.foldl (fun a z => Nat.xor a (g z)) 0) (g y))] at h
  have hx := xor_right_cancel _ _ _ h
  exact xor_left_cancel _ _ _ hx

/-- C5 (counterexample).  The claim says permuting the fields of a
composite leaves `get_type_hash` unchanged for every registry and type
id.  In `regP`, type 0 is a composite whose two fields lead into a
mutually recursive pair; permuting just those two fields (that is the
only difference between `regP` and `regPswap`) changes the digest,
because the order decides which of the cyclic types is cut by the
in-progress sentinel while its sub-hashes are cached. -/
theorem c5_counterexample_cycle_permutation :
    (get_type_hash pairH regP 9 0 emptyCache).1
      ≠ (get_type_hash pairH regPswap 9 0 emptyCache).1 := by decide

/-- C5 (amended).  Permuting the fields of a composite, the fields of a
variant, or the variants of an enum leaves the type-definition hash
unchanged provided the hashes of all referenced field types are already
finished in the cache (the situation with no in-progress cycle running
through them — without that proviso the counterexample above applies);
under the same proviso, renaming a single field (respectively a single
variant), all else equal, changes the hash whenever the two name hashes
differ and the combine primitive is collision-free (injective). -/
theorem c5_amended_local_permutation_and_renaming :
    (∀ (H : HashPrims) (R : Registry) (fuel : Nat) (cache : HashCache)
        (fields fields' : List SField), fields.Perm fields' →
        (∀ f ∈ fields, (cache f.ty).isSome) →
        get_type_def_hash H R (fuel + 1) (.composite fields) cache
          = get_type_def_hash H R (fuel + 1) (.composite fields') cache)
    ∧ (∀ (H : HashPrims) (R : Registry) (fuel : Nat) (cache : HashCache)
        (pre post : List SVariant) (v v' : SVariant),
        v.name = v'.name → v.index = v'.index → v.fields.Perm v'.fields →
        (∀ w ∈ pre ++ v :: post, ∀ f ∈ w.fields, (cache f.ty).isSome) →
        get_type_def_hash H R (fuel + 1) (.variant (pre ++ v :: post)) cache
          = get_type_def_hash H R (fuel + 1) (.variant (pre ++ v' :: post)) cache)
    ∧ (∀ (H : HashPrims) (R : Registry) (fuel : Nat) (cache : HashCache)
        (vars vars' : List SVariant), vars.Perm vars' →
        (∀ v ∈ vars, ∀ f ∈ v.fields, (cache f.ty).isSome) →
        get_type_def_hash H R (fuel + 1) (.variant vars) cache
          = get_type_def_hash H R (fuel + 1) (.variant vars') cache)
    ∧ (∀ (H : HashPrims) (R : Registry) (fuel : Nat) (cache : HashCache)
        (pre post : List SField) (f f' : SField),
        f.ty = f'.ty → field_name_hash H f ≠ field_name_hash H f' →
        Function.Injective2 H.cb2 →
        (∀ g ∈ pre ++ f :: post, (cache g.ty).isSome) →
        get_type_def_hash H R (fuel + 1) (.composite (pre ++ f :: post)) cache
          ≠ get_type_def_hash H R (fuel + 1) (.composite (pre ++ f' :: post)) cache)
    ∧ (∀ (H : HashPrims) (R : Registry) (fuel : Nat) (cache : HashCache)
        (pre post : List SVariant) (v v' : SVariant),
        v.fields = v'.fields → H.hname v.name ≠ H.hname v'.name →
        Function.Injective2 H.cb2 →
        (∀ w ∈ pre ++ v :: post, ∀ f ∈ w.fields, (cache f.ty).isSome) →
        get_type_def_hash H R (fuel + 1) (.variant (pre ++ v :: post)) cache
          ≠ get_type_def_hash H R (fuel + 1) (.variant (pre ++ v' :: post)) cache) := by
  refine ⟨?partA, ?partB, ?partC, ?partD, ?partE⟩
  case partA =>
    intro H R fuel cache fields fields' hp hc
    have hc' : ∀ f ∈ fields', (cache f.ty).isSome :=
      fun f hf => hc f (hp.symm.subset hf)
    rw [composite_def_eval H R fuel cache fields hc,
      composite_def_eval H R fuel cache fields' hc',
      xor_foldl_perm (pure_field_hash H cache) fields fields' hp 0]
  case partB =>
    intro H R fuel cache pre post v v' hn _hidx hperm hc
    have hcv : ∀ f ∈ v.fields, (cache f.ty).isSome :=
      fun f hf => hc v (by simp) f hf
    have hc' : ∀ w ∈ pre ++ v' :: post, ∀ f ∈ w.fields, (cache f.ty).isSome := by
      intro w hw f hf
      rcases List.mem_append.mp hw with h | h
      · exact hc w (List.mem_append.mpr (Or.inl h)) f hf
      · rcases List.mem_cons.mp h with he | h2
        · subst he
          exact hcv f (hperm.symm.subset hf)
        · exact hc w (List.mem_append.mpr (Or.inr (List.mem_cons.mpr (Or.inr h2)))) f hf
    have hpv : pure_variant_hash H cache v = pure_variant_hash H cache v' := by
      unfold pure_variant_hash
      rw [hn, xor_foldl_perm (pure_field_hash H cache) v.fields v'.fields hperm 0]
    rw [variant_def_eval H R fuel cache (pre ++ v :: post) hc,
      variant_def_eval H R fuel cache (pre ++ v' :: post) hc',
      List.foldl_append, List.foldl_append]
    simp only [List.foldl]
    rw [hpv]
  case partC =>
    intro H R fuel cache vars vars' hp hc
    have hc' : ∀ v ∈ vars', ∀ f ∈ v.fields, (cache f.ty).isSome :=
      fun v hv f hf => hc v (hp.symm.subset hv) f hf
    rw [variant_def_eval H R fuel cache vars hc,
      variant_def_eval H R fuel cache vars' hc',
      xor_foldl_perm (pure_variant_hash H cache) vars vars' hp 0]
  case partD =>
    intro H R fuel cache pre post f f' hty hnh hinj hc heq
    have hc' : ∀ g ∈ pre ++ f' :: post, (cache g.ty).isSome := by
      intro g hg
      rcases List.mem_append.mp hg with h | h
      · exact hc g (List.mem_append.mpr (Or.inl h))
      · rcases List.mem_cons.mp h with he | h2
        · subst he
          rw [← hty]
          exact hc f (List.mem_append.mpr (Or.inr (List.mem_cons.mpr (Or.inl rfl))))
        · exact hc g (List.mem_append.mpr (Or.inr (List.mem_cons.mpr (Or.inr h2))))
    rw [composite_def_eval H R fuel cache (pre ++ f :: post) hc,
      composite_def_eval H R fuel cache (pre ++ f' :: post) hc'] at heq
    have h1 : H.cb2 (tagDigest 0)
        ((pre ++ f :: post).foldl
          (fun x g => Nat.xor x (pure_field_hash H cache g)) 0)
        = H.cb2 (tagDigest 0)
          ((pre ++ f' :: post).foldl
            (fun x g => Nat.xor x (pure_field_hash H cache g)) 0) :=
      congrArg Prod.fst heq
    have h2 := (hinj h1).2
    have h3 := xor_foldl_replace (pure_field_hash H cache) pre post f f' h2
    unfold pure_field_hash at h3
    rw [hty] at h3
    exact hnh (hinj h3).1
  case partE =>
    intro H R fuel cache pre post v v' hfields hnh hinj hc heq
    have hc' : ∀ w ∈ pre ++ v' :: post, ∀ f ∈ w.fields, (cache f.ty).isSome := by
      intro w hw f hf
      rcases List.mem_append.mp hw with h | h
      · exact hc w (List.mem_append.mpr (Or.inl h)) f hf
      · rcases List.mem_cons.mp h with he | h2
        · subst he
          rw [← hfields] at hf
          exact hc v (List.mem_append.mpr (Or.inr (List.mem_cons.mpr (Or.inl rfl)))) f hf
        · exact hc w (List.mem_append.mpr (Or.inr (List.mem_cons.mpr (Or.inr h2)))) f hf
    rw [variant_def_eval H R fuel cache (pre ++ v :: post) hc,
      variant_def_eval H R fuel cache (pre ++ v' :: post) hc'] at heq
    have h1 : H.cb2 (tagDigest 1)
        ((pre ++ v :: post).foldl
          (fun x w => Nat.xor x (pure_variant_hash H cache w)) 0)
        = H.cb2 (tagDigest 1)
          ((pre ++ v' :: post).foldl
            (fun x w => Nat.xor x (pure_variant_hash H cache w)) 0) :=
      congrArg Prod.fst heq
    have h2 := (hinj h1).2
    have h3 := xor_foldl_replace (pure_variant_hash H cache) pre post v v' h2
    unfold pure_variant_hash at h3
    rw [hfields] at h3
    exact hnh (hinj h3).1

/-- C5 (witness).  Applying the permutation part concretely: with the
hashes of type ids 5 and 6 finished in the cache, swapping the two fields
of a composite leaves the type-definition hash unchanged. -/
theorem c5_amended_local_permutation_and_renaming_witness :
    get_type_def_hash pairH emptyRegistry 1
        (.composite [⟨some "x", 5⟩, ⟨some "y", 6⟩]) cacheTwo
      = get_type_def_hash pairH emptyRegistry 1
          (.composite [⟨some "y", 6⟩, ⟨some "x", 5⟩]) cacheTwo :=
  c5_amended_local_permutation_and_renaming.1 pairH emptyRegistry 0 cacheTwo
    [⟨some "x", 5⟩, ⟨some "y", 6⟩] [⟨some "y", 6⟩, ⟨some "x", 5⟩]
    (List.Perm.swap (⟨some "y", 6⟩ : SField) (⟨some "x", 5⟩ : SField) [])
    (by decide)

/-- The iterator's element sequence when the first decode failure is at
relative position `k`: one `Ok` per earlier blob in order, then the single
`Err`, then nothing. -/
theorem iter_results_eq (dec : Nat → List Nat → Except EmbErr ExtrinsicDetails)
    (okd : Nat → ExtrinsicDetails) (e : EmbErr) :
    ∀ (blobs : List (List Nat)) (s k : Nat), k < blobs.length →
      (∀ i, i < k → dec (s + i) (blobs.getD i []) = .ok (okd (s + i))) →
      dec (s + k) (blobs.getD k []) = .error e →
      iter_results dec s blobs
        = (List.range k).map (fun i => Except.ok (okd (s + i)))
            ++ [Except.error e] := by
  intro blobs
  induction blobs with
  | nil =>
    intro s k hk
    exact absurd hk (by simp)
  | cons b t ih =>
    intro s k hk hok herr
    cases k with
    | zero =>
      have hb : dec s b = .error e := by simpa using herr
      simp [iter_results, hb]
    | succ k =>
      have hb : dec s b = .ok (okd s) := by
        have h0 := hok 0 (Nat.succ_pos k)
        simpa using h0
      have hrest : iter_results dec (s + 1) t
          = (List.range k).map (fun i => Except.ok (okd (s + 1 + i)))
              ++ [Except.error e] := by
        apply ih
        · simpa using hk
        · intro i hi
          have hi1 := hok (i + 1) (by omega)
          have harith : s + (i + 1) = s + 1 + i := by omega
          rw [harith] at hi1
          exact hi1
        · have harith : s + (k + 1) = s + 1 + k := by omega
          rw [harith] at herr
          exact herr
      simp only [iter_results, hb]
      rw [hrest, List.range_succ_eq_map]
      simp only [List.map_cons, List.map_map]
      have hmap : ∀ a, a ∈ List.range k →
          (Except.ok (okd (s + 1 + a)) : Except EmbErr ExtrinsicDetails)
            = Except.ok (okd (s + (a + 1))) := by
        intro a _
        have harith : s + 1 + a = s + (a + 1) := by omega
        rw [harith]
      rw [List.map_congr_left hmap]
      simp [Function.comp]

/-- C3.  Extrinsic iteration is fail-fast: when every blob before index
`k` decodes successfully and the blob at index `k` is the first to fail,
`Extrinsics::iter` yields exactly one `Ok` per index `0..k` in block
order, then exactly one `Err` for index `k`, and nothing afterwards —
no element is produced for any later index. -/
theorem c3_iter_fail_fast (skip : SkipDecode) (ids : ExtrinsicPartTypeIds)
    (blobs : List (List Nat)) (k : Nat) (okd : Nat → ExtrinsicDetails)
    (e : EmbErr) (hk : k < blobs.length)
    (hok : ∀ i, i < k → decode_from skip ids i (blobs.getD i []) = .ok (okd i))
    (herr : decode_from skip ids k (blobs.getD k []) = .error e) :
    extrinsics_iter skip ids blobs
      = (List.range k).map (fun i => Except.ok (okd i)) ++ [Except.error e] := by
  unfold extrinsics_iter
  have hok' : ∀ i, i < k →
      (fun i b => decode_from skip ids i b) (0 + i) (blobs.getD i [])
        = .ok (okd (0 + i)) := by
    intro i hi
    simpa using hok i hi
  have herr' : (fun i b => decode_from skip ids i b) (0 + k) (blobs.getD k [])
      = .error e := by
    simpa using herr
  have h := iter_results_eq (fun i b => decode_from skip ids i b) okd e blobs
    0 k hk hok' herr'
  simpa using h

/-- C3 (witness).  On the five-blob block with the malformed blob at
index 2, iteration yields `Ok`, `Ok`, `Err` and nothing more, although
the blobs at indices 3 and 4 would decode successfully. -/
theorem c3_iter_fail_fast_witness :
    extrinsics_iter skipNone ids0 blobs5
      = [Except.ok (okdW 0), Except.ok (okdW 1),
          Except.error (.unsupportedVersion 3)] := by
  have h := c3_iter_fail_fast skipNone ids0 blobs5 2 okdW (.unsupportedVersion 3)
    (by decide) (by intro i hi; interval_cases i <;> rfl) rfl
  rw [h]
  rfl

/-- C10.  For every signed extrinsic successfully decoded (with a
skip-decode that, as the spec's structural-skip contract states, only
consumes bytes), the recorded offsets satisfy
`1 = address_start <= address_end <= signature_end <= extra_end =
call_start <= bytes.len()`, and the control byte, the address bytes, the
signature bytes, the signed-extension bytes and the call bytes exactly
partition the stored extrinsic bytes in that order. -/
theorem c10_signed_offsets_partition (skip : SkipDecode)
    (ids : ExtrinsicPartTypeIds) (index : Nat) (input : List Nat)
    (d : ExtrinsicDetails) (s : SignedExtrinsicDetails)
    (hskip : ∀ t l r, skip t l = some r → r.length ≤ l.length)
    (h : decode_from skip ids index input = .ok d)
    (hs : d.signedDetails = some s) :
    s.addressStartIdx = 1
    ∧ s.addressStartIdx ≤ s.addressEndIdx
    ∧ s.addressEndIdx ≤ s.signatureEndIdx
    ∧ s.signatureEndIdx ≤ s.extraEndIdx
    ∧ s.extraEndIdx = d.callStartIdx
    ∧ d.callStartIdx ≤ d.bytes.length
    ∧ d.bytes.take 1 ++ d.addressBytes.getD [] ++ d.signatureBytes.getD []
        ++ d.signedExtensionsBytes.getD [] ++ d.callBytes = d.bytes := by
  unfold decode_from at h
  cases hstr : strip_compact input with
  | error e => rw [hstr] at h; exact Except.noConfusion h
  | ok pr =>
    obtain ⟨len, bytes⟩ := pr
    rw [hstr] at h
    obtain ⟨-, hb, hlen1, -, -, hsig⟩ :=
      decode_stripped_ok_spec skip ids index bytes d h
    obtain ⟨c1, c2, c3, h1, h2, h3, ha0, hae, hse, hee, hcs⟩ := hsig s hs
    rw [← hb] at hlen1 ha0 hae hse hee hcs h1
    have hn1 : c1.length ≤ d.bytes.length - 1 := by
      have := hskip ids.address (d.bytes.drop 1) c1 h1
      simpa using this
    have hn2 : c2.length ≤ c1.length := hskip ids.signature c1 c2 h2
    have hn3 : c3.length ≤ c2.length := hskip ids.extra c2 c3 h3
    have has1 : s.addressStartIdx = 1 := by
      rw [ha0]
      simp only [List.length_drop]
      exact Nat.sub_sub_self hlen1
    have hchain1 : s.addressStartIdx ≤ s.addressEndIdx := by
      rw [has1, hae]
      have : d.bytes.length - (d.bytes.length - 1)
          ≤ d.bytes.length - c1.length := Nat.sub_le_sub_left hn1 _
      calc 1 = d.bytes.length - (d.bytes.length - 1) :=
                (Nat.sub_sub_self hlen1).symm
        _ ≤ d.bytes.length - c1.length := this
    have hchain2 : s.addressEndIdx ≤ s.signatureEndIdx := by
      rw [hae, hse]
      exact Nat.sub_le_sub_left hn2 _
    have hchain3 : s.signatureEndIdx ≤ s.extraEndIdx := by
      rw [hse, hee]
      exact Nat.sub_le_sub_left hn3 _
    have hcall : s.extraEndIdx = d.callStartIdx := by rw [hee, hcs]
    have hcalllen : d.callStartIdx ≤ d.bytes.length := by
      rw [hcs]
      exact Nat.sub_le _ _
    refine ⟨has1, hchain1, hchain2, hchain3, hcall, hcalllen, ?_⟩
    have haddr : d.addressBytes.getD []
        = sliceList d.bytes s.addressStartIdx s.addressEndIdx := by
      simp [ExtrinsicDetails.addressBytes, hs]
    have hsigb : d.signatureBytes.getD []
        = sliceList d.bytes s.addressEndIdx s.signatureEndIdx := by
      simp [ExtrinsicDetails.signatureBytes, hs]
    have hext : d.signedExtensionsBytes.getD []
        = sliceList d.bytes s.signatureEndIdx s.extraEndIdx := by
      simp [ExtrinsicDetails.signedExtensionsBytes, hs]
    have hcb : d.callBytes = d.bytes.drop s.extraEndIdx := by
      unfold ExtrinsicDetails.callBytes
      rw [hcall]
    rw [haddr, hsigb, hext, hcb, has1]
    rw [has1] at hchain1
    exact slice_partition d.bytes s.addressEndIdx s.signatureEndIdx
      s.extraEndIdx hchain1 hchain2 hchain3

/-- C10 (witness).  A concrete signed extrinsic (control byte 132) with a
one-byte address, signature and extra region: offsets 1, 2, 3, 4 and the
partition of the stored bytes hold. -/
theorem c10_signed_offsets_partition_witness :
    (1 : Nat) = 1 ∧ (1 : Nat) ≤ 2 ∧ (2 : Nat) ≤ 3 ∧ (3 : Nat) ≤ 4
    ∧ (4 : Nat) = (⟨0, [132, 1, 2, 3, 9, 7], some ⟨1, 2, 3, 4⟩, 4, 9, 7⟩
        : ExtrinsicDetails).callStartIdx
    ∧ (⟨0, [132, 1, 2, 3, 9, 7], some ⟨1, 2, 3, 4⟩, 4, 9, 7⟩
        : ExtrinsicDetails).callStartIdx
        ≤ (⟨0, [132, 1, 2, 3, 9, 7], some ⟨1, 2, 3, 4⟩, 4, 9, 7⟩
            : ExtrinsicDetails).bytes.length
    ∧ (⟨0, [132, 1, 2, 3, 9, 7], some ⟨1, 2, 3, 4⟩, 4, 9, 7⟩
        : ExtrinsicDetails).bytes.take 1
        ++ (⟨0, [132, 1, 2, 3, 9, 7], some ⟨1, 2, 3, 4⟩, 4, 9, 7⟩
            : ExtrinsicDetails).addressBytes.getD []
        ++ (⟨0, [132, 1, 2, 3, 9, 7], some ⟨1, 2, 3, 4⟩, 4, 9, 7⟩
            : ExtrinsicDetails).signatureBytes.getD []
        ++ (⟨0, [132, 1, 2, 3, 9, 7], some ⟨1, 2, 3, 4⟩, 4, 9, 7⟩
            : ExtrinsicDetails).signedExtensionsBytes.getD []
        ++ (⟨0, [132, 1, 2, 3, 9, 7], some ⟨1, 2, 3, 4⟩, 4, 9, 7⟩
            : ExtrinsicDetails).callBytes
        = (⟨0, [132, 1, 2, 3, 9, 7], some ⟨1, 2, 3, 4⟩, 4, 9, 7⟩
            : ExtrinsicDetails).bytes := by
  have hskip : ∀ t l r, skipOne t l = some r → r.length ≤ l.length := by
    intro t l r hr
    injection hr with hr
    subst hr
    simp
  exact c10_signed_offsets_partition skipOne ids0 0 [24, 132, 1, 2, 3, 9, 7]
    ⟨0, [132, 1, 2, 3, 9, 7], some ⟨1, 2, 3, 4⟩, 4, 9, 7⟩ ⟨1, 2, 3, 4⟩
    hskip rfl rfl

end Subxt
